import Mathlib

/-!
Verification development for the kglib knowledge-graph context-builder
pipeline.  The repository's test suite for the context builder
(`builder_test.py`) fixes the behaviour of `ContextBuilder`, `Sampler`
and the auxiliary dictionary/flattening utilities; the builder module
itself is specified in the accompanying design document, so those
operations are modelled here from the spec.  The encoding utilities
(`encode.py`) and the aggregation chain (`aggregation.py`) are present
in the sources and are translated directly.
-/

namespace Kglib

/-- Modelled from the spec: a `Thing` is an entity/relation/attribute node
identity with a store-assigned `id`, a `type_label`, a `base_type_label`,
and, for attributes, a `data_type` and `value`.  The builder module that
constructs Things is not among the sources; only its tests are. -/
structure Thing where
  id : String
  type_label : String
  base_type_label : String
  data_type : Option String := none
  value : Option String := none
deriving DecidableEq, Repr

/-- Modelled from the spec: the sentinel role direction meaning the target
Thing plays the role (outgoing). -/
def TARGET_PLAYS : Nat := 0

/-- Modelled from the spec: the sentinel role direction meaning the
neighbour plays the role (incoming). -/
def NEIGHBOUR_PLAYS : Nat := 1

/-- Modelled from the spec: a `Connection` is an edge observed from a
Thing's perspective: `role_label`, `role_direction` (one of two values),
and the Thing at the other end. -/
structure Connection where
  role_label : String
  role_direction : Nat
  neighbour_thing : Thing
deriving DecidableEq, Repr

mutual
/-- Modelled from the spec: a `ThingContext` is the node being described
plus an ordered sequence of sampled Neighbours at the next depth. -/
inductive ThingContext : Type where
  | mk : Thing → List Neighbour → ThingContext

/-- Modelled from the spec: a `Neighbour` is a sampled Connection
annotated with the recursively built context of its neighbour. -/
inductive Neighbour : Type where
  | mk : String → Nat → ThingContext → Neighbour
end

def ThingContext.thing : ThingContext → Thing
  | ThingContext.mk t _ => t

def ThingContext.neighbourhood : ThingContext → List Neighbour
  | ThingContext.mk _ ns => ns

def Neighbour.role_label : Neighbour → String
  | Neighbour.mk r _ _ => r

def Neighbour.role_direction : Neighbour → Nat
  | Neighbour.mk _ d _ => d

def Neighbour.context : Neighbour → ThingContext
  | Neighbour.mk _ _ c => c

/-- Modelled from the spec: the reference ordering strategy
`ordered_sample` preserves the candidates' arrival order and takes a
deterministic prefix of at most `sample_size` items. -/
def ordered_sample (candidates : List Connection) (sample_size : Nat) : List Connection :=
  candidates.take sample_size

/-- Modelled from the spec: `Sampler(sample_size, sampling_method, limit)`
selects at most `sample_size` connections after first truncating the
candidate stream to at most `limit` items.  The sampler module is not
among the sources; only its tests are. -/
structure Sampler where
  sample_size : Nat
  sampling_method : List Connection → Nat → List Connection
  limit : Nat

/-- Modelled from the spec: Sampler construction validates that
`limit` is at least `sample_size`; violating this is a configuration
error reported at construction time. -/
def Sampler.make (sample_size : Nat) (sampling_method : List Connection → Nat → List Connection)
    (limit : Nat) : Except String Sampler :=
  if limit < sample_size then
    Except.error "sample limit must be at least the sample size"
  else
    Except.ok { sample_size := sample_size, sampling_method := sampling_method, limit := limit }

/-- Modelled from the spec: calling a Sampler truncates the candidate
stream to at most `limit` items and then applies the ordering strategy
with the configured `sample_size`.  The call is a total function: no
error can be raised at call time. -/
def Sampler.call (s : Sampler) (candidates : List Connection) : List Connection :=
  s.sampling_method (candidates.take s.limit) s.sample_size

/-- Modelled from the spec: the recursive expansion at the heart of
`ContextBuilder.build`.  With no samplers left (depth equal to the
number of samplers) it returns `ThingContext(thing, [])` and issues no
query; otherwise it asks the finder for the candidate connections of
`thing`, applies the sampler of the current depth, and recursively
expands each selected neighbour in order.  The finder function stands
for `neighbour_finder.find` partially applied to the transaction. -/
def expand (find : String → List Connection) : List Sampler → Thing → ThingContext
  | [], thing => ThingContext.mk thing []
  | s :: rest, thing =>
      ThingContext.mk thing
        ((s.call (find thing.id)).map fun c =>
          Neighbour.mk c.role_label c.role_direction (expand find rest c.neighbour_thing))

/-- Modelled from the spec: the sequence of ids passed to
`neighbour_finder.find` during the recursive expansion, in call order.
The terminal case (no samplers left) issues no call at all. -/
def find_trace (find : String → List Connection) : List Sampler → Thing → List String
  | [], _ => []
  | s :: rest, thing =>
      thing.id ::
        ((s.call (find thing.id)).map fun c =>
          find_trace find rest c.neighbour_thing).flatten

/-- Modelled from the spec: a `ContextBuilder` holds an ordered sequence
of samplers (one per depth level) and the neighbour finder.  The
transaction is absorbed into the finder function. -/
structure ContextBuilder where
  samplers : List Sampler
  neighbour_finder : String → List Connection

/-- Modelled from the spec: `build` runs the recursive expansion from
the root thing at depth 0. -/
def ContextBuilder.build (cb : ContextBuilder) (thing : Thing) : ThingContext :=
  expand cb.neighbour_finder cb.samplers thing

/-- Projection used to separate structurally different contexts: the
role label of the first sampled neighbour, if any. -/
def first_role_label : ThingContext → Option String
  | ThingContext.mk _ [] => none
  | ThingContext.mk _ (n :: _) => some n.role_label

mutual
/-- Translated from `builder_test.py` (`get_max_depth`): the length of
the deepest aggregation path; 0 for an empty neighbourhood, otherwise
one more than the maximum over the neighbourhood. -/
def get_max_depth : ThingContext → Nat
  | ThingContext.mk _ [] => 0
  | ThingContext.mk _ (n :: ns) => neighbourhood_max_depth 0 (n :: ns) + 1

/-- Translated from `builder_test.py`: the accumulator loop inside
`get_max_depth` that keeps the running maximum child depth. -/
def neighbourhood_max_depth (max_depth : Nat) : List Neighbour → Nat
  | [] => max_depth
  | Neighbour.mk _ _ c :: ns =>
      neighbourhood_max_depth (max max_depth (get_max_depth c)) ns
end

/-- Record type emitted by the flattening routine: `(role_label,
role_direction, type_label, base_type_label, id, data_type, value)`. -/
def FlatRecord : Type :=
  String × Nat × String × String × String × Option String × Option String

/-- Translated from `builder_test.py` (`flatten_tree`): walk the list of
neighbours depth-first, appending one record per neighbour followed by
the flattening of its sub-neighbourhood. -/
def flatten_tree : List Neighbour → List FlatRecord
  | [] => []
  | Neighbour.mk r d (ThingContext.mk ci ns) :: rest =>
      (r, d, ci.type_label, ci.base_type_label, ci.id, ci.data_type, ci.value)
        :: (flatten_tree ns ++ flatten_tree rest)

/-- The record `flatten_tree` emits for one neighbour, taken from the
Neighbour itself and its context's Thing. -/
def neighbour_record (n : Neighbour) : FlatRecord :=
  (n.role_label, n.role_direction, n.context.thing.type_label,
   n.context.thing.base_type_label, n.context.thing.id,
   n.context.thing.data_type, n.context.thing.value)

/-- Depth-first pre-order enumeration of all neighbours in a forest:
each neighbour appears before every neighbour of its sub-neighbourhood. -/
def preorder_neighbours : List Neighbour → List Neighbour
  | [] => []
  | Neighbour.mk r d (ThingContext.mk ci ns) :: rest =>
      Neighbour.mk r d (ThingContext.mk ci ns)
        :: (preorder_neighbours ns ++ preorder_neighbours rest)

/-- Total number of neighbours in a forest of neighbourhoods. -/
def count_neighbours : List Neighbour → Nat
  | [] => 0
  | Neighbour.mk _ _ (ThingContext.mk _ ns) :: rest =>
      1 + count_neighbours ns + count_neighbours rest

/-- First-occurrence lookup in an association list from keys to lists of
values, the shallow model of a Python dict read. -/
def dict_find {K V : Type} [DecidableEq K] (k : K) :
    List (K × List V) → Option (List V)
  | [] => none
  | (k2, vs) :: rest => if k = k2 then some vs else dict_find k rest

/-- Modelled from the spec: one step of `update_dict_lists` for a single
key: when the key is already present its new values are prepended to the
existing list, otherwise a fresh entry is appended. -/
def dict_put {K V : Type} [DecidableEq K] (k : K) (vs : List V) :
    List (K × List V) → List (K × List V)
  | [] => [(k, vs)]
  | (k2, vs2) :: rest =>
      if k = k2 then (k2, vs ++ vs2) :: rest else (k2, vs2) :: dict_put k vs rest

/-- Modelled from the spec: `update_dict_lists(dict_to_add,
dict_to_update)` merges each entry of `dict_to_add` into
`dict_to_update`, prepending the newly added values for shared keys and
passing keys only in `dict_to_update` through unchanged.  The builder
module defining it is not among the sources; only its tests are. -/
def update_dict_lists {K V : Type} [DecidableEq K]
    (dict_to_add dict_to_update : List (K × List V)) : List (K × List V) :=
  dict_to_add.foldl (fun acc p => dict_put p.1 p.2 acc) dict_to_update

/-- Sequential effectful map over a list in the `Except` monad: stops at
the first error, as a Python for-loop that raises does. -/
def exceptMapList {E A B : Type} (g : A → Except E B) : List A → Except E (List B)
  | [] => Except.ok []
  | a :: as =>
      match g a with
      | Except.error e => Except.error e
      | Except.ok b =>
          match exceptMapList g as with
          | Except.error e => Except.error e
          | Except.ok bs => Except.ok (b :: bs)

/-- Modelled from the spec: the recursive expansion against a fallible
finder.  A failure of `neighbour_finder.find` is represented by an
`Except.error`; the expansion performs no retry and no recovery, so the
error propagates and no partial tree is produced. -/
def expandE {E : Type} (find : String → Except E (List Connection)) :
    List Sampler → Thing → Except E ThingContext
  | [], thing => Except.ok (ThingContext.mk thing [])
  | s :: rest, thing =>
      match find thing.id with
      | Except.error e => Except.error e
      | Except.ok cands =>
          match exceptMapList (fun c =>
              match expandE find rest c.neighbour_thing with
              | Except.error e => Except.error e
              | Except.ok ctx =>
                  Except.ok (Neighbour.mk c.role_label c.role_direction ctx))
            (s.call cands) with
          | Except.error e => Except.error e
          | Except.ok ns => Except.ok (ThingContext.mk thing ns)

/-- One element of graph data as `encode.py` sees it: a dict with a type
field and the slots the encoders write (`category_field` for the
categorical encoding, `one_hot_type` for the one-hot encoding). -/
structure ElemData where
  type_field : String
  category_field : Option Nat := none
  one_hot_type : Option (List Nat) := none
deriving DecidableEq, Repr

/-- Translated from `encode.py`: Python's `list.index`, which returns
the first index of the element or raises `ValueError` when absent. -/
def list_index (xs : List String) (x : String) : Except String Nat :=
  match xs with
  | [] => Except.error (x ++ " is not in list")
  | y :: ys => if y = x then Except.ok 0 else (list_index ys x).map (· + 1)

/-- Total first-index function used to describe the successful result of
`list_index` on present elements. -/
def index_of_first (xs : List String) (x : String) : Nat :=
  match xs with
  | [] => 0
  | y :: ys => if y = x then 0 else index_of_first ys x + 1

/-- Translated from `encode.py` (`encode_type_categorically`): walk the
graph data in order, writing `all_types.index(type)` into the category
field of each element; an absent type raises, leaving the current and
all later elements untouched.  Returns the final state of the data
together with the raised error message, if any. -/
def encode_type_categorically (graph_data : List ElemData) (all_types : List String) :
    List ElemData × Option String :=
  match graph_data with
  | [] => ([], none)
  | e :: rest =>
      match list_index all_types e.type_field with
      | Except.error msg => (e :: rest, some msg)
      | Except.ok i =>
          let r := encode_type_categorically rest all_types
          ({ e with category_field := some i } :: r.1, r.2)

/-- Translated from `encode.py` (`encode_types_one_hot`): the one-hot
vector `np.zeros(n)` with a 1 written at `idx`. -/
def one_hot (n idx : Nat) : List Nat :=
  (List.replicate n 0).set idx 1

/-- Translated from `encode.py`: the node loop of
`encode_types_one_hot`, writing the one-hot vector of each node's type
index in `all_node_types`; an absent type raises mid-loop. -/
def encode_nodes_one_hot (all_node_types : List String) :
    List ElemData → List ElemData × Option String
  | [] => ([], none)
  | e :: rest =>
      match list_index all_node_types e.type_field with
      | Except.error msg => (e :: rest, some msg)
      | Except.ok i =>
          let r := encode_nodes_one_hot all_node_types rest
          ({ e with one_hot_type := some (one_hot all_node_types.length i) } :: r.1, r.2)

/-- Translated from `encode.py`: the edge loop of
`encode_types_one_hot`, identical to the node loop but reading indices
from `all_edge_types`. -/
def encode_edges_one_hot (all_edge_types : List String) :
    List ElemData → List ElemData × Option String
  | [] => ([], none)
  | e :: rest =>
      match list_index all_edge_types e.type_field with
      | Except.error msg => (e :: rest, some msg)
      | Except.ok i =>
          let r := encode_edges_one_hot all_edge_types rest
          ({ e with one_hot_type := some (one_hot all_edge_types.length i) } :: r.1, r.2)

/-- The graph as `encode_types_one_hot` sees it: node data and edge
data. -/
structure Graph where
  nodes : List ElemData
  edges : List ElemData
deriving DecidableEq, Repr

/-- Translated from `encode.py` (`encode_types_one_hot`): first the node
loop, then — only if it completed — the edge loop.  A raise in the node
loop leaves every edge untouched. -/
def encode_types_one_hot (G : Graph) (all_node_types all_edge_types : List String) :
    Graph × Option String :=
  let rn := encode_nodes_one_hot all_node_types G.nodes
  match rn.2 with
  | some msg => ({ nodes := rn.1, edges := G.edges }, some msg)
  | none =>
      let re := encode_edges_one_hot all_edge_types G.edges
      ({ nodes := rn.1, edges := re.1 }, re.2)

/-- The element `encode_type_categorically` produces for an element
whose type is present in `all_types`. -/
def encode_cat_elem (all_types : List String) (e : ElemData) : ElemData :=
  { e with category_field := some (index_of_first all_types e.type_field) }

/-- The element the one-hot loops produce for an element whose type is
present in `all_types`. -/
def encode_one_hot_elem (all_types : List String) (e : ElemData) : ElemData :=
  { e with one_hot_type := some (one_hot all_types.length (index_of_first all_types e.type_field)) }

/-- Translated from `aggregation.py`: Python's three-argument `zip`,
truncating to the shortest input. -/
def zip3 {A B C : Type} : List A → List B → List C → List (A × B × C)
  | a :: as, b :: bs, c :: cs => (a, b, c) :: zip3 as bs cs
  | _, _, _ => []

/-- Translated from `aggregation.py` (`chain_aggregate_combine`): fold
over the enumerated aggregator/combiner/normaliser triples, threading
`full_representations` as an optional value that starts out unbound
(`none`, Python's unassigned local).  On the first iteration the
neighbour representations are gathered from the neighbourhood tensor;
afterwards they are the previous `full_representations`.  The function
finally returns `full_representations`, which is still unbound when the
loop body never ran. -/
def chain_aggregate_combine {T : Type} (neighbourhood : Nat → T)
    (aggregators : List (T → T)) (combiners : List (T → T → T))
    (normalisers : List (T → T)) : Option T :=
  ((zip3 aggregators combiners normalisers).enum).foldl
    (fun full_representations p =>
      let i := p.1
      let aggregator := p.2.1
      let combiner := p.2.2.1
      let normaliser := p.2.2.2
      let neighbour_representations := full_representations.getD (neighbourhood i)
      let neighbourhood_representations := aggregator neighbour_representations
      let targets := neighbourhood (i + 1)
      some (normaliser (combiner targets neighbourhood_representations)))
    none

/-- Specification predicate: at every node of a context tree, read
against the sampler list for its depth, the neighbourhood length is at
most the sample size of that depth's sampler and equals the minimum of
the sample size and the number of candidate connections the finder
returns for that node; nodes at terminal depth have an empty
neighbourhood. -/
def sample_size_inv (find : String → List Connection) :
    List Sampler → ThingContext → Prop
  | [], c => c.neighbourhood = []
  | s :: rest, c =>
      c.neighbourhood.length = min s.sample_size (find c.thing.id).length ∧
      c.neighbourhood.length ≤ s.sample_size ∧
      ∀ n ∈ c.neighbourhood, sample_size_inv find rest n.context

/-- Fixture: the root person entity with id "0" used throughout
`builder_test.py`. -/
def thing0 : Thing := { id := "0", type_label := "person", base_type_label := "entity" }

/-- Fixture: the employment relation with id "1". -/
def thing1 : Thing := { id := "1", type_label := "employment", base_type_label := "relation" }

/-- Fixture: the name attribute with id "3". -/
def thing3 : Thing :=
  { id := "3", type_label := "name", base_type_label := "attribute",
    data_type := some "string", value := some "Google" }

/-- Fixture: a company entity with id "2". -/
def thing2 : Thing := { id := "2", type_label := "company", base_type_label := "entity" }

/-- Fixture finder mirroring
`test_neighbour_finder_called_with_root_and_neighbour_ids`: two
connections for the root "0" and one connection for each of its
neighbours "1" and "3". -/
def demo_find : String → List Connection := fun id =>
  if id = "0" then
    [{ role_label := "employmee", role_direction := 1, neighbour_thing := thing1 },
     { role_label := "@has-name-owner", role_direction := 1, neighbour_thing := thing3 }]
  else if id = "1" then
    [{ role_label := "employer", role_direction := 0, neighbour_thing := thing2 }]
  else if id = "3" then
    [{ role_label := "@has-name", role_direction := 0, neighbour_thing := thing2 }]
  else []

/-- Fixture samplers mirroring the same test: sample sizes 2 then 1. -/
def demo_samplers : List Sampler :=
  [{ sample_size := 2, sampling_method := ordered_sample, limit := 2 },
   { sample_size := 1, sampling_method := ordered_sample, limit := 1 }]

/-- Fixture: a one-sampler configuration with sample size 1. -/
def one_samplers : List Sampler :=
  [{ sample_size := 1, sampling_method := ordered_sample, limit := 1 }]

/-- Fixture store returning the two connections of "0" in one order. -/
def store1_find : String → List Connection := fun id =>
  if id = "0" then
    [{ role_label := "employmee", role_direction := 1, neighbour_thing := thing1 },
     { role_label := "@has-name-owner", role_direction := 1, neighbour_thing := thing3 }]
  else []

/-- Fixture store returning the same set of connections for "0" as
`store1_find`, but in the opposite order. -/
def store2_find : String → List Connection := fun id =>
  if id = "0" then
    [{ role_label := "@has-name-owner", role_direction := 1, neighbour_thing := thing3 },
     { role_label := "employmee", role_direction := 1, neighbour_thing := thing1 }]
  else []

/-- Fixture: a store that never returns any connection. -/
def empty_find : String → List Connection := fun _ => []

/-- Fixture: a store that returns one connection for every id. -/
def total_find : String → List Connection := fun _ =>
  [{ role_label := "employmee", role_direction := 1, neighbour_thing := thing1 }]

/-- Fixture: the always-succeeding fallible view of `demo_find`. -/
def demo_findE : String → Except String (List Connection) := fun id =>
  Except.ok (demo_find id)

/-- Fixture: a fallible store whose query for id "1" fails. -/
def failing_findE : String → Except String (List Connection) := fun id =>
  if id = "1" then Except.error "transaction closed"
  else Except.ok (demo_find id)

theorem sampler_call_length (s : Sampler) (hm : s.sampling_method = ordered_sample)
    (hle : s.sample_size ≤ s.limit) (cs : List Connection) :
    (s.call cs).length = min s.sample_size cs.length := by
  simp only [Sampler.call, hm, ordered_sample, List.length_take]
  omega

theorem expand_thing (find : String → List Connection) (samplers : List Sampler)
    (t : Thing) : (expand find samplers t).thing = t := by
  cases samplers <;> simp [expand, ThingContext.thing]

theorem expand_sample_size_inv (find : String → List Connection) :
    ∀ samplers : List Sampler,
      (∀ s ∈ samplers, s.sampling_method = ordered_sample) →
      (∀ s ∈ samplers, s.sample_size ≤ s.limit) →
      ∀ t : Thing, sample_size_inv find samplers (expand find samplers t) := by
  intro samplers
  induction samplers with
  | nil =>
      intro _ _ t
      simp [expand, sample_size_inv, ThingContext.neighbourhood]
  | cons s rest ih =>
      intro hm hle t
      have hs : s.sampling_method = ordered_sample := hm s (List.mem_cons_self s rest)
      have hsle : s.sample_size ≤ s.limit := hle s (List.mem_cons_self s rest)
      have hlen := sampler_call_length s hs hsle (find t.id)
      refine ⟨?_, ?_, ?_⟩
      · simpa [expand, ThingContext.neighbourhood, ThingContext.thing] using hlen
      · simp only [expand, ThingContext.neighbourhood, List.length_map]
        omega
      · intro n hn
        simp only [expand, ThingContext.neighbourhood, List.mem_map] at hn
        obtain ⟨c, _, rfl⟩ := hn
        simpa [Neighbour.context] using
          ih (fun s2 h2 => hm s2 (List.mem_cons_of_mem s h2))
            (fun s2 h2 => hle s2 (List.mem_cons_of_mem s h2)) c.neighbour_thing

theorem neighbourhood_max_depth_le (d : Nat) :
    ∀ (ns : List Neighbour) (a : Nat),
      (∀ n ∈ ns, get_max_depth n.context ≤ d) →
      neighbourhood_max_depth a ns ≤ max a d := by
  intro ns
  induction ns with
  | nil =>
      intro a _
      simp [neighbourhood_max_depth]
  | cons n ns ih =>
      intro a h
      cases n with
      | mk r dir c =>
          have hc : get_max_depth c ≤ d := by
            simpa [Neighbour.context] using
              h (Neighbour.mk r dir c) (List.mem_cons_self _ ns)
          have h2 := ih (max a (get_max_depth c))
            (fun m hm => h m (List.mem_cons_of_mem _ hm))
          simp only [neighbourhood_max_depth]
          omega

theorem neighbourhood_max_depth_eq (d : Nat) :
    ∀ (ns : List Neighbour) (a : Nat), ns ≠ [] →
      (∀ n ∈ ns, get_max_depth n.context = d) →
      neighbourhood_max_depth a ns = max a d := by
  intro ns
  induction ns with
  | nil =>
      intro a h _
      exact absurd rfl h
  | cons n ns ih =>
      intro a _ h
      cases n with
      | mk r dir c =>
          have hc : get_max_depth c = d := by
            simpa [Neighbour.context] using
              h (Neighbour.mk r dir c) (List.mem_cons_self _ ns)
          simp only [neighbourhood_max_depth, hc]
          by_cases hns : ns = []
          · subst hns
            simp [neighbourhood_max_depth]
          · rw [ih (max a d) hns (fun m hm => h m (List.mem_cons_of_mem _ hm))]
            omega

theorem get_max_depth_mk_le (t : Thing) (ns : List Neighbour) (d : Nat)
    (h : ∀ n ∈ ns, get_max_depth n.context ≤ d) :
    get_max_depth (ThingContext.mk t ns) ≤ d + 1 := by
  cases ns with
  | nil => simp [get_max_depth]
  | cons n ns =>
      have := neighbourhood_max_depth_le d (n :: ns) 0 h
      simp only [get_max_depth]
      omega

theorem get_max_depth_mk_eq (t : Thing) (ns : List Neighbour) (d : Nat)
    (hne : ns ≠ []) (h : ∀ n ∈ ns, get_max_depth n.context = d) :
    get_max_depth (ThingContext.mk t ns) = d + 1 := by
  cases ns with
  | nil => exact absurd rfl hne
  | cons n ns =>
      have := neighbourhood_max_depth_eq d (n :: ns) 0 (by simp) h
      simp only [get_max_depth]
      omega

theorem get_max_depth_expand_le (find : String → List Connection) :
    ∀ (samplers : List Sampler) (t : Thing),
      get_max_depth (expand find samplers t) ≤ samplers.length := by
  intro samplers
  induction samplers with
  | nil =>
      intro t
      simp [expand, get_max_depth]
  | cons s rest ih =>
      intro t
      simp only [expand, List.length_cons]
      refine get_max_depth_mk_le t _ rest.length ?_
      intro n hn
      simp only [List.mem_map] at hn
      obtain ⟨c, _, rfl⟩ := hn
      simpa [Neighbour.context] using ih c.neighbour_thing

theorem get_max_depth_expand_eq (find : String → List Connection) :
    ∀ samplers : List Sampler,
      (∀ s ∈ samplers, s.sampling_method = ordered_sample) →
      (∀ s ∈ samplers, 1 ≤ s.sample_size ∧ s.sample_size ≤ s.limit) →
      (∀ id, find id ≠ []) →
      ∀ t : Thing, get_max_depth (expand find samplers t) = samplers.length := by
  intro samplers
  induction samplers with
  | nil =>
      intro _ _ _ t
      simp [expand, get_max_depth]
  | cons s rest ih =>
      intro hm hp hf t
      have hs : s.sampling_method = ordered_sample := hm s (List.mem_cons_self s rest)
      have hsp := hp s (List.mem_cons_self s rest)
      have hlen := sampler_call_length s hs hsp.2 (find t.id)
      have hcand : 0 < (find t.id).length := List.length_pos.mpr (hf t.id)
      have hpos : (s.call (find t.id)).length ≠ 0 := by omega
      simp only [expand, List.length_cons]
      refine get_max_depth_mk_eq t _ rest.length ?_ ?_
      · intro hmap
        apply hpos
        have : ((s.call (find t.id)).map fun c =>
            Neighbour.mk c.role_label c.role_direction
              (expand find rest c.neighbour_thing)).length = 0 := by
          rw [hmap]; rfl
        simpa using this
      · intro n hn
        simp only [List.mem_map] at hn
        obtain ⟨c, _, rfl⟩ := hn
        simpa [Neighbour.context] using
          ih (fun s2 h2 => hm s2 (List.mem_cons_of_mem s h2))
            (fun s2 h2 => hp s2 (List.mem_cons_of_mem s h2)) hf c.neighbour_thing

theorem dict_find_put_same {K V : Type} [DecidableEq K] (k : K) (vs : List V) :
    ∀ d : List (K × List V),
      dict_find k (dict_put k vs d) = some (vs ++ (dict_find k d).getD []) := by
  intro d
  induction d with
  | nil => simp [dict_put, dict_find]
  | cons p rest ih =>
      obtain ⟨k2, vs2⟩ := p
      by_cases h : k = k2
      · subst h
        simp [dict_put, dict_find]
      · simp [dict_put, dict_find, h, ih]

theorem dict_find_put_other {K V : Type} [DecidableEq K] (k k0 : K) (vs : List V)
    (hne : k ≠ k0) :
    ∀ d : List (K × List V), dict_find k (dict_put k0 vs d) = dict_find k d := by
  intro d
  induction d with
  | nil => simp [dict_put, dict_find, hne]
  | cons p rest ih =>
      obtain ⟨k2, vs2⟩ := p
      by_cases h : k0 = k2
      · subst h
        simp [dict_put, dict_find, hne]
      · by_cases h2 : k = k2
        · subst h2
          simp [dict_put, dict_find, h]
        · simp [dict_put, dict_find, h, h2, ih]

theorem dict_find_eq_none {K V : Type} [DecidableEq K] (k : K) :
    ∀ d : List (K × List V), k ∉ d.map Prod.fst → dict_find k d = none := by
  intro d
  induction d with
  | nil => intro _; rfl
  | cons p rest ih =>
      obtain ⟨k2, vs2⟩ := p
      intro h
      simp only [List.map_cons, List.mem_cons] at h
      push_neg at h
      simp [dict_find, h.1, ih h.2]

theorem update_dict_lists_find {K V : Type} [DecidableEq K] :
    ∀ dict_to_add dict_to_update : List (K × List V),
      (dict_to_add.map Prod.fst).Nodup →
      ∀ k, dict_find k (update_dict_lists dict_to_add dict_to_update) =
        match dict_find k dict_to_add, dict_find k dict_to_update with
        | some vs, some ws => some (vs ++ ws)
        | some vs, none => some vs
        | none, o => o := by
  intro dict_to_add
  induction dict_to_add with
  | nil =>
      intro u _ k
      simp only [update_dict_lists, List.foldl_nil, dict_find]
  | cons p rest ih =>
      obtain ⟨k0, vs0⟩ := p
      intro u hnodup k
      simp only [List.map_cons, List.nodup_cons] at hnodup
      have step : update_dict_lists ((k0, vs0) :: rest) u =
          update_dict_lists rest (dict_put k0 vs0 u) := by
        simp [update_dict_lists]
      rw [step, ih (dict_put k0 vs0 u) hnodup.2 k]
      by_cases hk : k = k0
      · subst hk
        rw [dict_find_eq_none k rest hnodup.1, dict_find_put_same k vs0 u]
        cases hu : dict_find k u <;> simp [dict_find, hu]
      · rw [dict_find_put_other k k0 vs0 hk u]
        simp [dict_find, hk]

theorem exceptMapList_ok {E A B : Type} (g : A → Except E B) (g2 : A → B) :
    ∀ l : List A, (∀ a ∈ l, g a = Except.ok (g2 a)) →
      exceptMapList g l = Except.ok (l.map g2) := by
  intro l
  induction l with
  | nil => intro _; rfl
  | cons a as ih =>
      intro h
      have ha := h a (List.mem_cons_self a as)
      have has := ih (fun a2 h2 => h a2 (List.mem_cons_of_mem a h2))
      simp [exceptMapList, ha, has]

theorem exceptMapList_cases {E A B : Type} (g : A → Except E B) :
    ∀ l : List A,
      (∃ bs, exceptMapList g l = Except.ok bs) ∨
      ∃ e, exceptMapList g l = Except.error e ∧ ∃ a ∈ l, g a = Except.error e := by
  intro l
  induction l with
  | nil => exact Or.inl ⟨[], rfl⟩
  | cons a as ih =>
      cases hga : g a with
      | error e =>
          refine Or.inr ⟨e, by simp [exceptMapList, hga], a, List.mem_cons_self a as, hga⟩
      | ok b =>
          rcases ih with ⟨bs, hbs⟩ | ⟨e, heq, a2, ha2, hga2⟩
          · exact Or.inl ⟨b :: bs, by simp [exceptMapList, hga, hbs]⟩
          · exact Or.inr ⟨e, by simp [exceptMapList, hga, heq],
              a2, List.mem_cons_of_mem a ha2, hga2⟩

theorem expandE_ok {E : Type} (find : String → Except E (List Connection))
    (f : String → List Connection) (h : ∀ id, find id = Except.ok (f id)) :
    ∀ (samplers : List Sampler) (t : Thing),
      expandE find samplers t = Except.ok (expand f samplers t) := by
  intro samplers
  induction samplers with
  | nil => intro t; rfl
  | cons s rest ih =>
      intro t
      have hmap := exceptMapList_ok
        (fun c =>
          match expandE find rest c.neighbour_thing with
          | Except.error e => Except.error e
          | Except.ok ctx => Except.ok (Neighbour.mk c.role_label c.role_direction ctx))
        (fun c => Neighbour.mk c.role_label c.role_direction (expand f rest c.neighbour_thing))
        (s.call (f t.id))
        (fun c _ => by simp [ih c.neighbour_thing])
      simp [expandE, h t.id, hmap, expand]

theorem expandE_total {E : Type} (find : String → Except E (List Connection)) :
    ∀ (samplers : List Sampler) (t : Thing),
      (∃ c, expandE find samplers t = Except.ok c) ∨
      ∃ e, expandE find samplers t = Except.error e ∧
        ∃ id, find id = Except.error e := by
  intro samplers
  induction samplers with
  | nil => intro t; exact Or.inl ⟨_, rfl⟩
  | cons s rest ih =>
      intro t
      cases hf : find t.id with
      | error e =>
          exact Or.inr ⟨e, by simp [expandE, hf], t.id, hf⟩
      | ok cands =>
          rcases exceptMapList_cases
            (fun c =>
              match expandE find rest c.neighbour_thing with
              | Except.error e => Except.error e
              | Except.ok ctx => Except.ok (Neighbour.mk c.role_label c.role_direction ctx))
            (s.call cands) with ⟨bs, hbs⟩ | ⟨e, heq, c, _, hgc⟩
          · refine Or.inl ⟨ThingContext.mk t bs, ?_⟩
            simp [expandE, hf, hbs]
          · have hrec : expandE find rest c.neighbour_thing = Except.error e := by
              revert hgc
              cases hr : expandE find rest c.neighbour_thing with
              | error e2 => intro hgc; simpa using hgc
              | ok ctx => intro hgc; simp at hgc
            rcases ih c.neighbour_thing with ⟨c2, hc2⟩ | ⟨e2, he2, id, hid⟩
            · rw [hc2] at hrec; simp at hrec
            · rw [he2] at hrec
              have : e2 = e := by simpa using hrec
              subst this
              exact Or.inr ⟨e2, by simp [expandE, hf, heq], id, hid⟩

theorem flatten_tree_eq_preorder :
    ∀ ns : List Neighbour,
      flatten_tree ns = (preorder_neighbours ns).map neighbour_record := by
  intro ns
  induction ns using flatten_tree.induct with
  | case1 => simp [flatten_tree, preorder_neighbours]
  | case2 r d ci ns rest ih1 ih2 =>
      simp [flatten_tree, preorder_neighbours, neighbour_record, Neighbour.role_label,
        Neighbour.role_direction, Neighbour.context, ThingContext.thing, ih1, ih2]

theorem flatten_tree_length :
    ∀ ns : List Neighbour, (flatten_tree ns).length = count_neighbours ns := by
  intro ns
  induction ns using flatten_tree.induct with
  | case1 => simp [flatten_tree, count_neighbours]
  | case2 r d ci ns rest ih1 ih2 =>
      simp [flatten_tree, count_neighbours, ih1, ih2]
      omega

theorem list_index_ok (x : String) :
    ∀ xs : List String, x ∈ xs → list_index xs x = Except.ok (index_of_first xs x) := by
  intro xs
  induction xs with
  | nil => intro h; simp at h
  | cons y ys ih =>
      intro h
      by_cases hy : y = x
      · simp [list_index, index_of_first, hy]
      · have hmem : x ∈ ys := by
          rcases List.mem_cons.mp h with h2 | h2
          · exact absurd h2.symm hy
          · exact h2
        simp [list_index, index_of_first, hy, ih hmem, Except.map]

theorem list_index_error (x : String) :
    ∀ xs : List String, x ∉ xs →
      list_index xs x = Except.error (x ++ " is not in list") := by
  intro xs
  induction xs with
  | nil => intro _; rfl
  | cons y ys ih =>
      intro h
      simp only [List.mem_cons] at h
      push_neg at h
      have hy : y ≠ x := fun h2 => h.1 h2.symm
      simp [list_index, hy, ih h.2, Except.map]

theorem encode_type_categorically_raises (T : List String) :
    ∀ (pre : List ElemData) (bad : ElemData) (post : List ElemData),
      (∀ e ∈ pre, e.type_field ∈ T) → bad.type_field ∉ T →
      encode_type_categorically (pre ++ bad :: post) T =
        (pre.map (encode_cat_elem T) ++ bad :: post,
          some (bad.type_field ++ " is not in list")) := by
  intro pre
  induction pre with
  | nil =>
      intro bad post _ hbad
      simp [encode_type_categorically, list_index_error _ _ hbad]
  | cons e pre ih =>
      intro bad post hpre hbad
      have he : e.type_field ∈ T := hpre e (List.mem_cons_self e pre)
      have hrest := ih bad post (fun e2 h2 => hpre e2 (List.mem_cons_of_mem e h2)) hbad
      simp [encode_type_categorically, list_index_ok _ _ he, hrest, encode_cat_elem]

theorem encode_nodes_one_hot_raises (T : List String) :
    ∀ (pre : List ElemData) (bad : ElemData) (post : List ElemData),
      (∀ e ∈ pre, e.type_field ∈ T) → bad.type_field ∉ T →
      encode_nodes_one_hot T (pre ++ bad :: post) =
        (pre.map (encode_one_hot_elem T) ++ bad :: post,
          some (bad.type_field ++ " is not in list")) := by
  intro pre
  induction pre with
  | nil =>
      intro bad post _ hbad
      simp [encode_nodes_one_hot, list_index_error _ _ hbad]
  | cons e pre ih =>
      intro bad post hpre hbad
      have he : e.type_field ∈ T := hpre e (List.mem_cons_self e pre)
      have hrest := ih bad post (fun e2 h2 => hpre e2 (List.mem_cons_of_mem e h2)) hbad
      simp [encode_nodes_one_hot, list_index_ok _ _ he, hrest, encode_one_hot_elem]

theorem encode_nodes_one_hot_ok (T : List String) :
    ∀ nodes : List ElemData, (∀ e ∈ nodes, e.type_field ∈ T) →
      encode_nodes_one_hot T nodes = (nodes.map (encode_one_hot_elem T), none) := by
  intro nodes
  induction nodes with
  | nil => intro _; rfl
  | cons e rest ih =>
      intro h
      have he : e.type_field ∈ T := h e (List.mem_cons_self e rest)
      have hrest := ih (fun e2 h2 => h e2 (List.mem_cons_of_mem e h2))
      simp [encode_nodes_one_hot, list_index_ok _ _ he, hrest, encode_one_hot_elem]

theorem encode_edges_one_hot_raises (T : List String) :
    ∀ (pre : List ElemData) (bad : ElemData) (post : List ElemData),
      (∀ e ∈ pre, e.type_field ∈ T) → bad.type_field ∉ T →
      encode_edges_one_hot T (pre ++ bad :: post) =
        (pre.map (encode_one_hot_elem T) ++ bad :: post,
          some (bad.type_field ++ " is not in list")) := by
  intro pre
  induction pre with
  | nil =>
      intro bad post _ hbad
      simp [encode_edges_one_hot, list_index_error _ _ hbad]
  | cons e pre ih =>
      intro bad post hpre hbad
      have he : e.type_field ∈ T := hpre e (List.mem_cons_self e pre)
      have hrest := ih bad post (fun e2 h2 => hpre e2 (List.mem_cons_of_mem e h2)) hbad
      simp [encode_edges_one_hot, list_index_ok _ _ he, hrest, encode_one_hot_elem]

theorem zip3_nil_left {A B C : Type} (bs : List B) (cs : List C) :
    zip3 ([] : List A) bs cs = [] := by
  cases bs <;> cases cs <;> rfl

theorem zip3_nil_mid {A B C : Type} (as : List A) (cs : List C) :
    zip3 as ([] : List B) cs = [] := by
  cases as <;> cases cs <;> rfl

theorem zip3_nil_right {A B C : Type} (as : List A) (bs : List B) :
    zip3 as bs ([] : List C) = [] := by
  cases as <;> cases bs <;> rfl

theorem foldl_isSome {A B : Type} (f : Option B → A → Option B)
    (hf : ∀ acc a, (f acc a).isSome) :
    ∀ (l : List A) (init : Option B), init.isSome ∨ l ≠ [] →
      (List.foldl f init l).isSome := by
  intro l
  induction l with
  | nil =>
      intro init h
      rcases h with h | h
      · simpa using h
      · exact absurd rfl h
  | cons a as ih =>
      intro init _
      simp only [List.foldl_cons]
      exact ih (f init a) (Or.inl (hf init a))

/-- C1, counterexample: the claim that two builds with identical inputs
produce structurally equal trees even when the backing store returns the
same set of connections in a different order is false: for the root
thing with one ordered sampler of size 1, two stores returning the same
two connections for id "0" in opposite orders build different trees. -/
theorem c1_reorder_counterexample :
    (store1_find "0").Perm (store2_find "0") ∧
    ContextBuilder.build ⟨one_samplers, store1_find⟩ thing0 ≠
      ContextBuilder.build ⟨one_samplers, store2_find⟩ thing0 := by
  constructor
  · decide
  · intro h
    have h2 := congrArg first_role_label h
    have e1 : first_role_label (ContextBuilder.build ⟨one_samplers, store1_find⟩ thing0) =
        some "employmee" := by decide
    have e2 : first_role_label (ContextBuilder.build ⟨one_samplers, store2_find⟩ thing0) =
        some "@has-name-owner" := by decide
    rw [e1, e2] at h2
    simp at h2

/-- C1 (amended): two calls to `ContextBuilder.build` with the same root
Thing and sampler configuration produce structurally equal ThingContext
trees whenever the backing store returns identical connection sequences
for every id across the two calls; order-changing stores are excluded by
the counterexample. -/
theorem c1_build_deterministic (find1 find2 : String → List Connection)
    (samplers : List Sampler) (h : ∀ id, find1 id = find2 id) (t : Thing) :
    ContextBuilder.build ⟨samplers, find1⟩ t =
      ContextBuilder.build ⟨samplers, find2⟩ t := by
  have hf : find1 = find2 := funext h
  subst hf
  rfl

/-- C1 witness: the determinism theorem applied to the test fixture. -/
theorem c1_build_deterministic_witness :
    ContextBuilder.build ⟨demo_samplers, demo_find⟩ thing0 =
      ContextBuilder.build ⟨demo_samplers, fun id => demo_find id⟩ thing0 :=
  c1_build_deterministic demo_find (fun id => demo_find id) demo_samplers
    (fun _ => rfl) thing0

/-- C2: for every ordered-sample configuration whose limits are at least
the sample sizes, every node of the built tree at depth d has a
neighbourhood of length at most `samplers[d].sample_size` and exactly
`min(sample_size, number of candidate connections the finder returns for
that node)`; when fewer candidates exist all of them are kept and no
error is possible (the builder is a total function). -/
theorem c2_neighbourhood_sizes (cb : ContextBuilder)
    (hm : ∀ s ∈ cb.samplers, s.sampling_method = ordered_sample)
    (hle : ∀ s ∈ cb.samplers, s.sample_size ≤ s.limit) (t : Thing) :
    sample_size_inv cb.neighbour_finder cb.samplers (cb.build t) :=
  expand_sample_size_inv cb.neighbour_finder cb.samplers hm hle t

/-- C2 witness: the size invariant on the concrete two-level fixture. -/
theorem c2_neighbourhood_sizes_witness :
    sample_size_inv demo_find demo_samplers
      (ContextBuilder.build ⟨demo_samplers, demo_find⟩ thing0) :=
  c2_neighbourhood_sizes ⟨demo_samplers, demo_find⟩
    (by
      intro s hs
      simp only [demo_samplers, List.mem_cons, List.not_mem_nil, or_false] at hs
      rcases hs with rfl | rfl <;> rfl)
    (by
      intro s hs
      simp only [demo_samplers, List.mem_cons, List.not_mem_nil, or_false] at hs
      rcases hs with rfl | rfl <;> decide)
    thing0

/-- C3, counterexample: the depth of the built tree is not always
exactly the number of samplers: with one sampler and a store returning
no connections the tree has depth 0. -/
theorem c3_depth_counterexample :
    get_max_depth (ContextBuilder.build ⟨one_samplers, empty_find⟩ thing0) = 0 ∧
    one_samplers.length = 1 := by
  constructor
  · simp [ContextBuilder.build, expand, one_samplers, empty_find, Sampler.call,
      ordered_sample, get_max_depth]
  · rfl

/-- C3 (amended): the built tree has depth at most the number of
samplers, with equality whenever every expanded node yields at least one
sampled neighbour (ordered sampling with positive sample sizes, valid
limits, and a finder that always returns at least one connection); the
expansion with no samplers left returns `ThingContext(thing, [])` and
issues no finder query. -/
theorem c3_depth (cb : ContextBuilder)
    (hm : ∀ s ∈ cb.samplers, s.sampling_method = ordered_sample)
    (hp : ∀ s ∈ cb.samplers, 1 ≤ s.sample_size ∧ s.sample_size ≤ s.limit)
    (hf : ∀ id, cb.neighbour_finder id ≠ []) (t : Thing) :
    get_max_depth (cb.build t) = cb.samplers.length ∧
    (∀ (find2 : String → List Connection) (t2 : Thing),
      get_max_depth (expand find2 cb.samplers t2) ≤ cb.samplers.length) ∧
    expand cb.neighbour_finder [] t = ThingContext.mk t [] ∧
    find_trace cb.neighbour_finder [] t = [] :=
  ⟨get_max_depth_expand_eq cb.neighbour_finder cb.samplers hm hp hf t,
   fun find2 t2 => get_max_depth_expand_le find2 cb.samplers t2,
   rfl, rfl⟩

/-- C3 witness: the two-sampler fixture over a store that always has a
neighbour builds a tree of depth exactly 2. -/
theorem c3_depth_witness :
    get_max_depth (ContextBuilder.build ⟨demo_samplers, total_find⟩ thing0) =
      demo_samplers.length :=
  (c3_depth ⟨demo_samplers, total_find⟩
    (by
      intro s hs
      simp only [demo_samplers, List.mem_cons, List.not_mem_nil, or_false] at hs
      rcases hs with rfl | rfl <;> rfl)
    (by
      intro s hs
      simp only [demo_samplers, List.mem_cons, List.not_mem_nil, or_false] at hs
      rcases hs with rfl | rfl <;> exact ⟨by decide, by decide⟩)
    (fun id => by simp [total_find])
    thing0).1

/-- C4: `update_dict_lists(dict_to_add, dict_to_update)` maps every key
of `dict_to_add` to `dict_to_add[key] ++ dict_to_update[key]` when the
key is in both inputs (new values prepended), to `dict_to_add[key]`
alone when the key is only in `dict_to_add`, and leaves keys present
only in `dict_to_update` unchanged. -/
theorem c4_update_dict_lists {K V : Type} [DecidableEq K]
    (dict_to_add dict_to_update : List (K × List V))
    (hnodup : (dict_to_add.map Prod.fst).Nodup) (k : K) :
    dict_find k (update_dict_lists dict_to_add dict_to_update) =
      match dict_find k dict_to_add, dict_find k dict_to_update with
      | some vs, some ws => some (vs ++ ws)
      | some vs, none => some vs
      | none, o => o :=
  update_dict_lists_find dict_to_add dict_to_update hnodup k

/-- C4 witness: the spec's concrete example, shared key 1. -/
theorem c4_update_dict_lists_witness :
    dict_find 1 (update_dict_lists [(1, ["b"]), (2, ["t"]), (3, ["y"])]
      [(1, ["a"]), (2, ["s"]), (3, ["x"])]) = some ["b", "a"] := by
  have h := c4_update_dict_lists [(1, ["b"]), (2, ["t"]), (3, ["y"])]
    [(1, ["a"]), (2, ["s"]), (3, ["x"])] (by decide) 1
  rw [h]
  rfl

/-- C5: on the two-sampler fixture of the test (root id "0", two
connections for the root, one for each neighbour), the finder is called
exactly once per expanded Thing, in the order root, then each sampled
depth-1 neighbour; in general the first call of a non-terminal expansion
is always the expanded thing's own id. -/
theorem c5_find_call_order :
    (∀ (find : String → List Connection) (s : Sampler) (rest : List Sampler) (t : Thing),
      (find_trace find (s :: rest) t).head? = some t.id) ∧
    find_trace demo_find demo_samplers thing0 = ["0", "1", "3"] := by
  constructor
  · intro find s rest t
    rfl
  · rfl

/-- C6: constructing a Sampler with `limit < sample_size` yields the
configuration error at construction time; a successfully constructed
Sampler satisfies `sample_size ≤ limit` and its call is a total
function on candidate lists, so the error can never occur at call
time. -/
theorem c6_sampler_construction (sample_size limit : Nat)
    (method : List Connection → Nat → List Connection) :
    (limit < sample_size →
      Sampler.make sample_size method limit =
        Except.error "sample limit must be at least the sample size") ∧
    (sample_size ≤ limit →
      ∃ s, Sampler.make sample_size method limit = Except.ok s ∧
        s.sample_size ≤ s.limit ∧
        ∀ cs, s.call cs = method (cs.take limit) sample_size) := by
  constructor
  · intro h
    simp [Sampler.make, h]
  · intro h
    refine ⟨⟨sample_size, method, limit⟩, ?_, h, fun cs => rfl⟩
    simp [Sampler.make, Nat.not_lt.mpr h]

/-- C6 witness: limit 2 with sample size 3 is rejected at construction;
limit 3 with sample size 2 constructs successfully. -/
theorem c6_sampler_construction_witness :
    Sampler.make 3 ordered_sample 2 =
      Except.error "sample limit must be at least the sample size" ∧
    (Sampler.make 2 ordered_sample 3).isOk = true := by
  constructor
  · exact (c6_sampler_construction 3 2 ordered_sample).1 (by decide)
  · obtain ⟨s, hs, -, -⟩ := (c6_sampler_construction 2 3 ordered_sample).2 (by decide)
    simp [hs, Except.isOk, Except.toBool]

/-- C7: against a finder that succeeds everywhere the fallible expansion
returns exactly the full pure tree; against any finder, the expansion
either fully succeeds or fails with an error value that the finder
itself returned for some id — the error propagates unmodified and no
partial tree is ever produced. -/
theorem c7_error_propagation {E : Type} (find : String → Except E (List Connection))
    (f : String → List Connection) (h : ∀ id, find id = Except.ok (f id))
    (samplers : List Sampler) (t : Thing) :
    expandE find samplers t = Except.ok (expand f samplers t) ∧
    ∀ find2 : String → Except E (List Connection),
      (∃ c, expandE find2 samplers t = Except.ok c) ∨
      ∃ e, expandE find2 samplers t = Except.error e ∧
        ∃ id, find2 id = Except.error e :=
  ⟨expandE_ok find f h samplers t, fun find2 => expandE_total find2 samplers t⟩

/-- C7 witness: the all-ok fixture store builds the full pure tree, and
a store failing on id "1" propagates its error through the build. -/
theorem c7_error_propagation_witness :
    expandE demo_findE demo_samplers thing0 =
      Except.ok (expand demo_find demo_samplers thing0) ∧
    expandE failing_findE demo_samplers thing0 =
      Except.error "transaction closed" :=
  ⟨(c7_error_propagation demo_findE demo_find (fun _ => rfl) demo_samplers thing0).1,
   rfl⟩

/-- C8: the flattening routine walks the forest of neighbours
depth-first, emitting exactly one record per Neighbour — the tuple of
its role label, role direction and its context Thing's type label, base
type label, id, data type and value — with each Neighbour's record
before all records of its sub-neighbourhood. -/
theorem c8_flatten_depth_first (ns : List Neighbour) :
    flatten_tree ns = (preorder_neighbours ns).map neighbour_record ∧
    (flatten_tree ns).length = count_neighbours ns :=
  ⟨flatten_tree_eq_preorder ns, flatten_tree_length ns⟩

/-- C9: when the data contains an element whose type is absent from the
supplied type list — `all_types` for `encode_type_categorically`,
`all_node_types` for the node loop and `all_edge_types` for the edge
loop of `encode_types_one_hot` — the function stops with the uncaught
`ValueError`, the elements processed before the offending one keep the
encodings already written to them (for an edge failure this includes
every node encoding and the earlier edge encodings), and the offending
and later elements (and, for a node-loop failure, all edges) are
untouched. -/
theorem c9_encode_missing_type (T NT ET : List String)
    (pre post edges : List ElemData) (bad : ElemData)
    (nodes epre epost : List ElemData) (ebad : ElemData)
    (hpre : ∀ e ∈ pre, e.type_field ∈ T) (hbad : bad.type_field ∉ T)
    (hpreN : ∀ e ∈ pre, e.type_field ∈ NT) (hbadN : bad.type_field ∉ NT)
    (hnodes : ∀ e ∈ nodes, e.type_field ∈ NT)
    (hepre : ∀ e ∈ epre, e.type_field ∈ ET) (hebad : ebad.type_field ∉ ET) :
    encode_type_categorically (pre ++ bad :: post) T =
      (pre.map (encode_cat_elem T) ++ bad :: post,
        some (bad.type_field ++ " is not in list")) ∧
    encode_types_one_hot ⟨pre ++ bad :: post, edges⟩ NT ET =
      (⟨pre.map (encode_one_hot_elem NT) ++ bad :: post, edges⟩,
        some (bad.type_field ++ " is not in list")) ∧
    encode_types_one_hot ⟨nodes, epre ++ ebad :: epost⟩ NT ET =
      (⟨nodes.map (encode_one_hot_elem NT),
        epre.map (encode_one_hot_elem ET) ++ ebad :: epost⟩,
        some (ebad.type_field ++ " is not in list")) := by
  refine ⟨encode_type_categorically_raises T pre bad post hpre hbad, ?_, ?_⟩
  · have h := encode_nodes_one_hot_raises NT pre bad post hpreN hbadN
    simp [encode_types_one_hot, h]
  · have hn := encode_nodes_one_hot_ok NT nodes hnodes
    have hedge := encode_edges_one_hot_raises ET epre ebad epost hepre hebad
    simp [encode_types_one_hot, hn, hedge]

/-- C9 witness: a well-typed element followed by an unknown type for the
categorical encoder and the node loop (first element keeps its written
encoding, edges untouched), and a well-typed node with a well-typed edge
followed by an unknown edge type for the edge loop (node and earlier
edge keep their encodings, later edges untouched). -/
theorem c9_encode_missing_type_witness :
    encode_type_categorically
      [⟨"a", none, none⟩, ⟨"z", none, none⟩] ["a"] =
      ([⟨"a", some 0, none⟩, ⟨"z", none, none⟩], some ("z" ++ " is not in list")) ∧
    encode_types_one_hot ⟨[⟨"a", none, none⟩, ⟨"z", none, none⟩], [⟨"e", none, none⟩]⟩
        ["a"] ["e"] =
      (⟨[⟨"a", none, some [1]⟩, ⟨"z", none, none⟩], [⟨"e", none, none⟩]⟩,
        some ("z" ++ " is not in list")) ∧
    encode_types_one_hot ⟨[⟨"a", none, none⟩], [⟨"e", none, none⟩, ⟨"w", none, none⟩]⟩
        ["a"] ["e"] =
      (⟨[⟨"a", none, some [1]⟩], [⟨"e", none, some [1]⟩, ⟨"w", none, none⟩]⟩,
        some ("w" ++ " is not in list")) := by
  have h := c9_encode_missing_type ["a"] ["a"] ["e"] [⟨"a", none, none⟩] []
    [⟨"e", none, none⟩] ⟨"z", none, none⟩ [⟨"a", none, none⟩] [⟨"e", none, none⟩] []
    ⟨"w", none, none⟩ (by decide) (by decide) (by decide) (by decide) (by decide)
    (by decide) (by decide)
  refine ⟨?_, ?_, ?_⟩
  · have h1 := h.1
    simpa [encode_cat_elem, index_of_first] using h1
  · have h2 := h.2.1
    simpa [encode_one_hot_elem, index_of_first, one_hot] using h2
  · have h3 := h.2.2
    simpa [encode_one_hot_elem, index_of_first, one_hot] using h3

/-- C10: `chain_aggregate_combine` with empty aggregators, combiners or
normalisers returns the unbound `full_representations` (modelled as
`none`, Python's `UnboundLocalError`) rather than any value; with at
least one aggregator/combiner/normaliser triple it returns a value. -/
theorem c10_chain_requires_triples {T : Type} (neighbourhood : Nat → T)
    (aggregators : List (T → T)) (combiners : List (T → T → T))
    (normalisers : List (T → T)) :
    ((aggregators = [] ∨ combiners = [] ∨ normalisers = []) →
      chain_aggregate_combine neighbourhood aggregators combiners normalisers = none) ∧
    (aggregators ≠ [] → combiners ≠ [] → normalisers ≠ [] →
      (chain_aggregate_combine neighbourhood aggregators combiners normalisers).isSome
        = true) := by
  constructor
  · intro h
    have hz : zip3 aggregators combiners normalisers = [] := by
      rcases h with rfl | rfl | rfl
      · exact zip3_nil_left _ _
      · exact zip3_nil_mid _ _
      · exact zip3_nil_right _ _
    simp [chain_aggregate_combine, hz]
  · intro h1 h2 h3
    obtain ⟨a, as, rfl⟩ := List.exists_cons_of_ne_nil h1
    obtain ⟨b, bs, rfl⟩ := List.exists_cons_of_ne_nil h2
    obtain ⟨c, cs, rfl⟩ := List.exists_cons_of_ne_nil h3
    unfold chain_aggregate_combine
    apply foldl_isSome
    · intro acc p
      simp
    · right
      intro heq
      have hlen := congrArg List.length heq
      simp [zip3] at hlen

/-- C10 witness: the empty chain returns nothing; a one-triple chain
over natural numbers returns a value. -/
theorem c10_chain_requires_triples_witness :
    chain_aggregate_combine (fun _ => (0 : Nat)) [] [] [] = none ∧
    (chain_aggregate_combine (fun _ => (0 : Nat))
      [fun x => x] [fun x _ => x] [fun x => x]).isSome = true := by
  constructor
  · exact (c10_chain_requires_triples (fun _ => (0 : Nat)) [] [] []).1 (Or.inl rfl)
  · exact (c10_chain_requires_triples (fun _ => (0 : Nat))
      [fun x => x] [fun x _ => x] [fun x => x]).2 (by simp) (by simp) (by simp)

end Kglib
